import Mathlib

/-!
Shallow embedding of `src/pysub/pysub.py` (module `pysub`).

Modelling conventions:
* Python `datetime.datetime` timestamps are represented by their value under
  the source's `_u` helper, i.e. the total number of microseconds
  (hour*3600e6 + minute*60e6 + second*1e6 + microsecond) as an integer.
  All comparisons and arithmetic the source performs on times go through
  `_u` or through `datetime` comparison/shift, which this integer view
  reflects exactly (calendar overflow of the fixed 1900-01-01 reference
  date is outside the represented range and is noted at the claims that
  mention date-range bounds).
* Python text strings are represented as `List Char`.
* Python floats are represented as exact rationals `ℚ`; a float division by
  zero raises `ZeroDivisionError` in Python and is modelled by an explicit
  error value.
* Fallible Python code (uncaught exceptions) is modelled with
  `Except PyError`.
* A `SubtitleStream` is represented by its list of fragments (its `name`
  and `encoding` attributes play no role in any modelled operation).
-/

namespace Pysub

/-- Uncaught Python exception kinds that the modelled code can raise. -/
inductive PyError where
  /-- IndexError: sequence index out of range (`lst[-1]` / `lst[0]` on `[]`). -/
  | indexError : PyError
  /-- ZeroDivisionError: float or integer division by zero. -/
  | zeroDivisionError : PyError
  /-- AttributeError: assignment to a property that has no setter. -/
  | attributeError : PyError
  /-- ValueError: bad `int(...)` conversion or out-of-range `datetime` field
      raised outside any `except` clause. -/
  | valueError : PyError
  /-- UnboundLocalError: a local variable referenced before assignment. -/
  | unboundLocalError : PyError
  /-- SRTParseException with its message (source class `SRTParseException`). -/
  | srtParseError : List Char → PyError
  /-- The bare `Exception` raised by `synchronize` when the `pyraphrase`
      collaborator module is absent. -/
  | configError : PyError
deriving DecidableEq

/-- Source class `Fragment` (pysub.py lines 83-163).  `startμ`/`endμ` are the
`_u` microsecond values of `_starttime`/`_endtime`; `textlines` is the list
of text lines. -/
structure Fragment where
  seqnumber : ℤ
  startμ : ℤ
  endμ : ℤ
  textlines : List (List Char)
deriving DecidableEq

instance : Inhabited Fragment :=
  ⟨⟨0, 0, 0, []⟩⟩

/-- Source property `Fragment.duration`: `_u(endtime) - _u(starttime)`. -/
def Fragment.duration (f : Fragment) : ℤ :=
  f.endμ - f.startμ

/-- Source property `Fragment.text`: the text lines joined by newline. -/
def Fragment.text (f : Fragment) : List Char :=
  List.intercalate ['\n'] f.textlines

/-- Source method `Fragment.shift` (lines 114-129): builds
`delta = timedelta(microseconds=abs(microseconds))` and subtracts it when the
argument is negative, adds it otherwise.  On the microsecond view this is the
two-branch computation below. -/
def Fragment.shift (f : Fragment) (microseconds : ℤ) : Fragment :=
  let delta := |microseconds|
  if microseconds < 0 then
    { f with startμ := f.startμ - delta, endμ := f.endμ - delta }
  else
    { f with startμ := f.startμ + delta, endμ := f.endμ + delta }

/-- Round-half-to-even, the rounding `datetime.timedelta` applies to a float
`microseconds` argument. -/
def roundHalfEven (q : ℚ) : ℤ :=
  let fl := ⌊q⌋
  let frac := q - (fl : ℚ)
  if frac < 1/2 then fl
  else if 1/2 < frac then fl + 1
  else if Even fl then fl else fl + 1

/-- Source method `Fragment.shift` when called with a Python float argument
(as `_synchronize` does with `-expecteddelay`): `timedelta` rounds the
absolute float microsecond amount half-to-even, and the sign branch of
`shift` applies it backward or forward. -/
def Fragment.shiftq (f : Fragment) (q : ℚ) : Fragment :=
  f.shift (if q < 0 then -(roundHalfEven |q|) else roundHalfEven |q|)

/-- Source method `SubtitleStream.shift` (lines 413-422): a new stream whose
every fragment is shifted by the same amount. -/
def SubtitleStream.shift (frags : List Fragment) (microseconds : ℤ) : List Fragment :=
  frags.map (fun f => f.shift microseconds)

/-- Float variant of `SubtitleStream.shift`, used by `_synchronize` on the
delayed stream with the predicted (float) delay. -/
def SubtitleStream.shiftq (frags : List Fragment) (q : ℚ) : List Fragment :=
  frags.map (fun f => f.shiftq q)

/-- Lowercasing as Python 2 `unicode.lower()` acts on the characters this
program can meet: ASCII `A`-`Z` plus the uppercase accented vowels of the
source's simplification table and `Ñ` (every other character relevant to the
regex below is already fixed by lowercasing, since without `re.UNICODE` the
`\w` class is ASCII-only). -/
def pyLower (c : Char) : Char :=
  match c with
  | 'A' => 'a' | 'B' => 'b' | 'C' => 'c' | 'D' => 'd' | 'E' => 'e'
  | 'F' => 'f' | 'G' => 'g' | 'H' => 'h' | 'I' => 'i' | 'J' => 'j'
  | 'K' => 'k' | 'L' => 'l' | 'M' => 'm' | 'N' => 'n' | 'O' => 'o'
  | 'P' => 'p' | 'Q' => 'q' | 'R' => 'r' | 'S' => 's' | 'T' => 't'
  | 'U' => 'u' | 'V' => 'v' | 'W' => 'w' | 'X' => 'x' | 'Y' => 'y'
  | 'Z' => 'z'
  | 'Á' => 'á' | 'É' => 'é' | 'Í' => 'í' | 'Ó' => 'ó' | 'Ú' => 'ú'
  | 'Ü' => 'ü' | 'Ñ' => 'ñ'
  | c => c

/-- The source's `simplification_table` (normalize, lines 48-55) applied
through `simplification_table.get(c, False) or c`: accented lowercase vowels
map to their plain form, everything else is unchanged. -/
def deaccent (c : Char) : Char :=
  match c with
  | 'á' => 'a' | 'é' => 'e' | 'í' => 'i' | 'ó' => 'o' | 'ú' => 'u'
  | 'ü' => 'u'
  | c => c

/-- Character class `[\wñ]` of the normalize regex: without `re.UNICODE`,
`\w` is `[a-zA-Z0-9_]`, extended by the explicit `ñ`. -/
def wordChar (c : Char) : Bool :=
  ('a' ≤ c && c ≤ 'z') || ('A' ≤ c && c ≤ 'Z') || ('0' ≤ c && c ≤ '9') ||
    c == '_' || c == 'ñ'

/-- Scan for the `>` that ends a lazy `<.+?>` match: succeed at the first
`>`, fail on a newline (which `.` does not match) or at end of input.
Returns the characters after the matched `>`. -/
def tagScan : List Char → Option (List Char)
  | [] => none
  | c :: cs => if c = '>' then some cs else if c = '\n' then none else tagScan cs

/-- Attempt the `<.+?>` alternative at a position whose character is `<`:
`cs` holds the characters after the `<`; `.+?` must consume at least one
non-newline character before the closing `>` is looked for. -/
def tagSplit : List Char → Option (List Char)
  | [] => none
  | c :: cs => if c = '\n' then none else tagScan cs

/-- Left-to-right scan of `re.sub(ur'<.+?>|[^\wñ]+', ' ', line)`.
At a fresh position (`inRun = false`) the engine first tries the tag
alternative (only possible at `<`), then the greedy non-word-run class, and
otherwise keeps the character.  `inRun = true` means the previous position
started a `[^\wñ]+` match whose single replacement space is already
emitted, so further non-word characters (including `<`) are consumed
silently until a word character ends the run.  The fuel argument only
bounds the recursion and never expires when it is at least the length of
the list, since every call consumes at least one character. -/
def reSubGo : ℕ → Bool → List Char → List Char
  | 0, _, _ => []
  | _ + 1, _, [] => []
  | n + 1, false, c :: cs =>
    if c = '<' then
      match tagSplit cs with
      | some rest => ' ' :: reSubGo n false rest
      | none => ' ' :: reSubGo n true cs
    else if wordChar c then c :: reSubGo n false cs
    else ' ' :: reSubGo n true cs
  | n + 1, true, c :: cs =>
    if wordChar c then c :: reSubGo n false cs
    else reSubGo n true cs

/-- The whole regex substitution of `normalize` (line 64). -/
def reSubMarkup (l : List Char) : List Char :=
  reSubGo l.length false l

/-- Source function `normalize` (lines 43-66): lowercase, apply the
simplification table, then replace every markup tag or non-word run by a
single space. -/
def normalize (l : List Char) : List Char :=
  reSubMarkup ((l.map pyLower).map deaccent)

/-- Loop body of `SubtitleStream.check_sequence` (lines 388-405): enumerate
fragments from 1; on a mismatched sequence number record
`(fragment, actual, expected)`; with `repair` the source then executes
`f.seqnumber = i`, but `Fragment.seqnumber` (lines 137-139) is a getter-only
property, so that assignment raises `AttributeError` at the first mismatch. -/
def check_sequence_go (repair : Bool) :
    List Fragment → ℤ → List (Fragment × ℤ × ℤ) →
    Except PyError (List (Fragment × ℤ × ℤ))
  | [], _, acc => .ok acc
  | f :: fs, i, acc =>
    if f.seqnumber ≠ i then
      if repair then .error .attributeError
      else check_sequence_go repair fs (i + 1) (acc ++ [(f, f.seqnumber, i)])
    else check_sequence_go repair fs (i + 1) acc

/-- Source method `SubtitleStream.check_sequence` (lines 388-405). -/
def SubtitleStream.check_sequence (frags : List Fragment) (repair : Bool := false) :
    Except PyError (List (Fragment × ℤ × ℤ)) :=
  check_sequence_go repair frags 1 []

/-- The external `pyraphrase.get_paraphrases` collaborator, reduced to the
single statistic the source consumes: `min(stats['lcsr'])` for a pair of
normalized texts (spec section 6 treats the oracle as an opaque scoring
function). -/
def Oracle : Type :=
  List Char → List Char → ℚ

/-- Score one candidate `f` of `select_closest` (lines 216-232) against the
reference fragment: the oracle's lcsr statistic, then
`time_score = 1 - time/interval` (a Python float division that raises
`ZeroDivisionError` when `interval` is zero), then the overlap score with
its `overlap > 0` guard (whose division by `ref.duration` is likewise a
float division), and finally the weighted confidence. -/
def scoreCandidate (oracle : Oracle) (ref f : Fragment) (interval : ℚ) :
    Except PyError ℚ := do
  let lcsr_score : ℚ := oracle (normalize ref.text) (normalize f.text)
  let time : ℚ := ((|ref.startμ - f.startμ| : ℤ) : ℚ)
  let time_score : ℚ ←
    if interval = 0 then .error .zeroDivisionError
    else .ok (1 - time / interval)
  let overlap : ℤ := min ref.endμ f.endμ - max ref.startμ f.startμ
  let overlap_score : ℚ ←
    if 0 < overlap then
      if (ref.duration : ℚ) = 0 then .error .zeroDivisionError
      else .ok ((overlap : ℚ) / (ref.duration : ℚ))
    else .ok 0
  .ok (0.5 * time_score + 0.3 * lcsr_score + 0.2 * overlap_score)

/-- The `for f in options` loop of `select_closest` (lines 216-236): keep the
candidate with the strictly greatest confidence seen so far. -/
def selectLoop (oracle : Oracle) (ref : Fragment) (interval : ℚ) :
    List Fragment → Fragment → ℚ → Except PyError (Fragment × ℚ)
  | [], best, bestc => .ok (best, bestc)
  | f :: fs, best, bestc => do
    let confidence ← scoreCandidate oracle ref f interval
    if bestc < confidence then selectLoop oracle ref interval fs f confidence
    else selectLoop oracle ref interval fs best bestc

/-- Source function `select_closest` (inside `_synchronize`, lines 212-238):
`best_choice = options[0]` raises `IndexError` on an empty window; the window
interval is the start-time span between the last and first candidate; then
the loop above runs with initial best confidence 0. -/
def select_closest (oracle : Oracle) (ref : Fragment) (options : List Fragment) :
    Except PyError (Fragment × ℚ) :=
  match options with
  | [] => .error .indexError
  | f0 :: rest =>
    let lastf := rest.getLastD f0
    let interval : ℚ := ((lastf.startμ - f0.startμ : ℤ) : ℚ)
    selectLoop oracle ref interval (f0 :: rest) f0 0

/-- The cursor loop of `_synchronize` (line 249):
`while j < len(fixed)-1 and fixed[j].starttime < fragment.starttime: j += 1`.
The fuel argument only bounds the recursion; `fixed.length` steps always
suffice. -/
def windowCursorGo (fixed : List Fragment) (refStart : ℤ) : ℕ → ℕ → ℕ
  | 0, j => j
  | fuel + 1, j =>
    if j < fixed.length - 1 ∧ ((fixed.getD j default).startμ < refStart) then
      windowCursorGo fixed refStart fuel (j + 1)
    else j

/-- Final cursor position of the `_synchronize` scan for one reference
fragment. -/
def windowCursor (fixed : List Fragment) (refStart : ℤ) : ℕ :=
  windowCursorGo fixed refStart fixed.length 0

/-- Lower slice bound `max(0, j-1)` of line 252, computed over ℤ exactly as
the source computes it over Python ints. -/
def windowLo (fixed : List Fragment) (refStart : ℤ) : ℤ :=
  max 0 ((windowCursor fixed refStart : ℤ) - 1)

/-- Upper slice bound `min(len(fixed), j+2)` of line 252. -/
def windowHi (fixed : List Fragment) (refStart : ℤ) : ℤ :=
  min (fixed.length : ℤ) ((windowCursor fixed refStart : ℤ) + 2)

/-- The candidate window `fixed[max(0,j-1):min(len(fixed),j+2)]` of line 252
(both bounds are non-negative, so the Python slice is the take/drop below). -/
def candidateWindow (fixed : List Fragment) (refStart : ℤ) : List Fragment :=
  ((fixed.drop (windowLo fixed refStart).toNat).take
    ((windowHi fixed refStart - windowLo fixed refStart).toNat))

/-- The `for fragment in reference` loop of `_synchronize` (lines 244-255):
predict the delay, shift the delayed stream backward by it, slice the
candidate window around the cursor and pick the closest candidate. -/
def syncLoop (oracle : Oracle) (delayed : List Fragment) (d : Fragment → ℚ) :
    List Fragment → Except PyError (List (Fragment × Fragment × ℚ))
  | [] => .ok []
  | fragment :: rest => do
    let expecteddelay := d fragment
    let fixed := SubtitleStream.shiftq delayed (-expecteddelay)
    let candidates := candidateWindow fixed fragment.startμ
    let res ← select_closest oracle fragment candidates
    let tail ← syncLoop oracle delayed d rest
    .ok ((fragment, res.1, res.2) :: tail)

/-- Source static method `SubtitleStream._synchronize` (lines 200-258):
returns `[]` immediately for an empty reference stream, otherwise runs the
matching loop. -/
def SubtitleStream.synchronizeCore (oracle : Oracle) (reference delayed : List Fragment)
    (d : Fragment → ℚ) : Except PyError (List (Fragment × Fragment × ℚ)) :=
  if reference.length = 0 then .ok []
  else syncLoop oracle delayed d reference

/-- Python `stream[-1].starttime` through `_u`: the last fragment's start in
microseconds, raising `IndexError` on an empty stream. -/
def lastStart (frags : List Fragment) : Except PyError ℤ :=
  match frags with
  | [] => .error .indexError
  | f :: fs => .ok (fs.getLastD f).startμ

/-- The delay function built by `build_delay_function` (lines 189-190):
`lambda x: float(_u(x.starttime)) * totaldelay / duration` where the
`totaldelay` argument is `abs(totaldelay)`. -/
def delayFun (totaldelay duration : ℤ) (x : Fragment) : ℚ :=
  ((x.startμ : ℚ)) * (totaldelay : ℚ) / (duration : ℚ)

/-- Lines 193-195 of `synchronize`: total delay from the two last-fragment
start times, reference/delayed designation and the reference duration. -/
def syncSetup (sstream1 sstream2 : List Fragment) :
    Except PyError ((List Fragment × List Fragment) × ℤ × ℤ) := do
  let last1 ← lastStart sstream1
  let last2 ← lastStart sstream2
  let totaldelay := last1 - last2
  let rd := if totaldelay < 0 then (sstream1, sstream2) else (sstream2, sstream1)
  let duration ← lastStart rd.1
  .ok (rd, |totaldelay|, duration)

/-- Source static method `SubtitleStream.synchronize` (lines 180-198): the
oracle must be present (`Exception` otherwise), then the designation and the
delay function feed `_synchronize`. -/
def SubtitleStream.synchronize (oracle : Option Oracle)
    (sstream1 sstream2 : List Fragment) :
    Except PyError (List (Fragment × Fragment × ℚ)) := do
  match oracle with
  | none => .error .configError
  | some oracle => do
    let setup ← syncSetup sstream1 sstream2
    SubtitleStream.synchronizeCore oracle setup.1.1 setup.1.2
      (delayFun setup.2.1 setup.2.2)

/-- Whitespace characters stripped by Python `unicode.strip()` (the ASCII
ones; lines of an SRT file contain no other whitespace of interest). -/
def pySpace (c : Char) : Bool :=
  c == ' ' || c == '\t' || c == '\n' || c == '\r' || c == '\x0b' || c == '\x0c'

/-- Python `line.strip()`: drop leading and trailing whitespace. -/
def pyStrip (l : List Char) : List Char :=
  ((l.dropWhile pySpace).reverse.dropWhile pySpace).reverse

/-- Accumulate the value of a non-empty all-digit string. -/
def digitsValGo : ℤ → List Char → Option ℤ
  | acc, [] => some acc
  | acc, c :: cs =>
    if c.isDigit then digitsValGo (acc * 10 + ((c.toNat : ℤ) - 48)) cs else none

/-- Value of a non-empty string of decimal digits, `none` otherwise. -/
def digitsVal : List Char → Option ℤ
  | [] => none
  | l => digitsValGo 0 l

/-- Python 2 `int(s)` on a text argument: optional surrounding whitespace,
an optional sign, then at least one decimal digit (exotic unicode digit
forms are outside the modelled alphabet); `none` models the `ValueError`. -/
def intParse (l : List Char) : Option ℤ :=
  match pyStrip l with
  | '+' :: rest => digitsVal rest
  | '-' :: rest => (digitsVal rest).map (fun n => -n)
  | rest => digitsVal rest

/-- Prepend a character to the first piece of a split result. -/
def consHead (c : Char) : List (List Char) → List (List Char)
  | [] => [[c]]
  | t :: ts => (c :: t) :: ts

/-- Python `line.split(u'-->')`: split on each non-overlapping occurrence of
the three-character separator, scanning left to right. -/
def splitArrow : List Char → List (List Char)
  | '-' :: '-' :: '>' :: rest => [] :: splitArrow rest
  | c :: rest => consHead c (splitArrow rest)
  | [] => [[]]

/-- Python `re.split(ur'[:,]', s)`: split at every single colon or comma. -/
def splitPunct : List Char → List (List Char)
  | [] => [[]]
  | c :: cs =>
    if c = ':' ∨ c = ',' then [] :: splitPunct cs
    else consHead c (splitPunct cs)

/-- The `SRTParseException` message for a bad sequence number line
(line 291): `u"'%s' is not a valid sequence number" % line`. -/
def seqMsg (line : List Char) : List Char :=
  '\'' :: line ++ '\'' :: " is not a valid sequence number".data

/-- The `SRTParseException` message for a bad period line (line 308). -/
def periodMsg (line : List Char) : List Char :=
  '\'' :: line ++ '\'' :: " does not seem to have a valid period line format".data

/-- Convert the split pieces of one side of a period line to integers:
`[int(i) for i in re.split(ur'[:,]', period[k])]`, where a failing `int`
raises an uncaught `ValueError`. -/
def intsOf : List (List Char) → Except PyError (List ℤ)
  | [] => .ok []
  | p :: ps => do
    match intParse p with
    | none => .error .valueError
    | some n => do
      let rest ← intsOf ps
      .ok (n :: rest)

/-- One side of a period line (lines 298-306): integer components, the
`assert(len(...) == 4)` with the period-format message, the millisecond
scaling `tuple[-1] *= 1000`, the `datetime(1900,1,1,*tuple)` field
validation (an uncaught `ValueError` when out of range), and the `_u`
microsecond value of the resulting time. -/
def parsePeriodSide (side : List Char) (line : List Char) : Except PyError ℤ := do
  let ints ← intsOf (splitPunct side)
  match ints with
  | [h, m, s, ms] =>
    let μ := ms * 1000
    if 0 ≤ h ∧ h ≤ 23 ∧ 0 ≤ m ∧ m ≤ 59 ∧ 0 ≤ s ∧ s ≤ 59 ∧ 0 ≤ μ ∧ μ ≤ 999999 then
      .ok (h * 3600000000 + m * 60000000 + s * 1000000 + μ)
    else .error .valueError
  | _ => .error (.srtParseError (periodMsg line))

/-- Parser state: the `stage` and `ignoring` variables of `_parse`
(lines 266-267) plus the Python locals `seqnumber`, `starttime`, `endtime`
and `textlines`, each `none` while still unbound, and the accumulated
`fragmentlist`. -/
structure PState where
  stage : ℕ
  ignoring : Bool
  seq : Option ℤ
  startμ : Option ℤ
  endμ : Option ℤ
  tlines : Option (List (List Char))
  frags : List Fragment
deriving DecidableEq

/-- Initial parser state of `_parse`. -/
def initPState : PState :=
  ⟨0, true, none, none, none, none, []⟩

/-- Build `Fragment(seqnumber, starttime, endtime, textlines)` from the
current locals; referencing a still-unbound local raises
`UnboundLocalError`. -/
def flushFragment (s : PState) : Except PyError Fragment :=
  match s.seq, s.startμ, s.endμ, s.tlines with
  | some n, some sμ, some eμ, some ts => .ok ⟨n, sμ, eμ, ts⟩
  | _, _, _, _ => .error .unboundLocalError

/-- The non-blank-line part of the `_parse` loop body (lines 286-322),
running with `ignoring` already cleared: dispatch on `stage`, then
`stage += 1`.  At stage 2 the `assert(line)` cannot fail because blank
lines were already diverted. -/
def stepContent (s : PState) (line : List Char) : Except PyError PState :=
  if s.stage = 0 then
    match intParse line with
    | none => .error (.srtParseError (seqMsg line))
    | some n => .ok { s with seq := some n, stage := s.stage + 1 }
  else if s.stage = 1 then do
    let period := (splitArrow line).map pyStrip
    match period with
    | [p0, p1] => do
      let sμ ← parsePeriodSide p0 line
      let eμ ← parsePeriodSide p1 line
      .ok { s with startμ := some sμ, endμ := some eμ, stage := s.stage + 1 }
    | _ => .error (.srtParseError (periodMsg line))
  else if s.stage = 2 then
    .ok { s with tlines := some [line], stage := s.stage + 1 }
  else
    match s.tlines with
    | some ts => .ok { s with tlines := some (ts ++ [line]), stage := s.stage + 1 }
    | none => .error .unboundLocalError

/-- One iteration of the `for line in srtfile` loop of `_parse`
(lines 271-322): strip the line; a blank line flushes the pending fragment
unless `ignoring`; a non-blank line clears `ignoring` and dispatches on the
stage. -/
def step (s : PState) (raw : List Char) : Except PyError PState :=
  let line := pyStrip raw
  if line = [] then
    if s.ignoring = false then do
      let f ← flushFragment s
      .ok { s with frags := s.frags ++ [f], stage := 0, ignoring := true }
    else .ok s
  else
    stepContent { s with ignoring := false } line

/-- Run `step` over a list of lines, stopping at the first error. -/
def runLines (s : PState) : List (List Char) → Except PyError PState
  | [] => .ok s
  | raw :: rest =>
    match step s raw with
    | .error e => .error e
    | .ok s' => runLines s' rest

/-- The whole `_parse` loop followed by the end-of-file flush
(lines 324-330). -/
def parseLoop (s : PState) : List (List Char) → Except PyError (List Fragment)
  | [] =>
    if s.ignoring = false then do
      let f ← flushFragment s
      .ok (s.frags ++ [f])
    else .ok s.frags
  | raw :: rest =>
    match step s raw with
    | .error e => .error e
    | .ok s' => parseLoop s' rest

/-- Source static method `SubtitleStream._parse` (lines 260-330), with the
file given as its list of raw lines (the `codecs` iteration). -/
def SubtitleStream.parse (lines : List (List Char)) : Except PyError (List Fragment) :=
  parseLoop initPState lines

theorem Fragment.shift_startμ (f : Fragment) (m : ℤ) :
    (f.shift m).startμ = f.startμ + m := by
  unfold Fragment.shift
  split
  · simp [abs_of_neg (by assumption : m < 0)]
  · simp [abs_of_nonneg (le_of_not_lt (by assumption : ¬ m < 0))]

theorem Fragment.shift_endμ (f : Fragment) (m : ℤ) :
    (f.shift m).endμ = f.endμ + m := by
  unfold Fragment.shift
  split
  · simp [abs_of_neg (by assumption : m < 0)]
  · simp [abs_of_nonneg (le_of_not_lt (by assumption : ¬ m < 0))]

/-- C7: shifting a stream by `a` and then by `b` yields fragments with the
same start and end times as shifting once by `a + b` (in the integer
microsecond model the composition holds unconditionally, hence in
particular within the date-range bounds of the source's fixed 1900-01-01
reference date). -/
theorem shift_composition (frags : List Fragment) (a b : ℤ) :
    (SubtitleStream.shift (SubtitleStream.shift frags a) b).map
        (fun f => (f.startμ, f.endμ)) =
      (SubtitleStream.shift frags (a + b)).map (fun f => (f.startμ, f.endμ)) := by
  unfold SubtitleStream.shift
  simp only [List.map_map]
  refine List.map_congr_left (fun f _ => ?_)
  simp [Function.comp, Fragment.shift_startμ, Fragment.shift_endμ, add_assoc]

/-- C1: `check_sequence(repair=True)` on a stream whose stored sequence
numbers differ from their positions does not repair the stream: the source
executes `f.seqnumber = i`, but `Fragment.seqnumber` is a getter-only
property, so the call raises `AttributeError` at the first mismatch
(here a single fragment labelled 2). -/
theorem check_sequence_repair_attribute_error :
    SubtitleStream.check_sequence [(⟨2, 0, 1000000, [['h', 'i']]⟩ : Fragment)] true =
      .error .attributeError := by
  rfl

/-- C2 counterexample: with the oracle present, top-level `synchronize`
applied to an empty (reference) stream does not return an empty result: it
raises `IndexError`, because `sstream1[-1].starttime` is evaluated before
any emptiness check. -/
theorem synchronize_empty_stream_raises :
    SubtitleStream.synchronize (some (fun _ _ => 0)) []
        [(⟨1, 0, 1000000, [['a']]⟩ : Fragment)] =
      .error .indexError := by
  rfl

/-- C2 amended: only the internal `_synchronize` treats an empty reference
stream as an empty result without error; the top-level `synchronize`
raises `IndexError` on an empty input stream. -/
theorem synchronize_core_empty_reference (oracle : Oracle)
    (delayed : List Fragment) (d : Fragment → ℚ) :
    SubtitleStream.synchronizeCore oracle [] delayed d = .ok [] := by
  rfl

/-- C3: for a reference fragment whose candidate window holds exactly one
candidate, the scorer does not produce `time_score = 1`: the window interval
`_u(options[-1].starttime) - _u(options[0].starttime)` is zero and the
division `time/interval` raises `ZeroDivisionError` (there is no guard in
the source). -/
theorem select_closest_single_candidate_zero_division (oracle : Oracle)
    (ref f : Fragment) :
    select_closest oracle ref [f] = .error .zeroDivisionError := by
  simp [select_closest, selectLoop, scoreCandidate, List.getLastD, sub_self,
    Bind.bind, Except.bind]

/-- C6: for a reference fragment whose candidate window is empty (which
happens exactly when the delayed stream is empty), the selector does not
return a no-match result with confidence 0: `best_choice = options[0]`
raises `IndexError`. -/
theorem select_closest_empty_window_index_error (oracle : Oracle) (ref : Fragment) :
    select_closest oracle ref [] = .error .indexError := by
  rfl

/-- C4 counterexample: with last-fragment start times 10 and 20, the stream
whose last fragment starts EARLIER (the first one) is designated as
`reference` (and its last start, 10, as the duration), contradicting the
claim that the stream with the LATER last start becomes the reference. -/
theorem sync_reference_designation_cex :
    syncSetup [(⟨1, 10, 20, []⟩ : Fragment)] [(⟨1, 20, 30, []⟩ : Fragment)] =
        .ok (([(⟨1, 10, 20, []⟩ : Fragment)], [(⟨1, 20, 30, []⟩ : Fragment)]), 10, 10) ∧
      (10 : ℤ) < 20 := by
  exact ⟨rfl, by norm_num⟩

/-- C4 amended: `synchronize` designates as `reference` the stream whose
last fragment has the EARLIER start time (ties going to the second
argument) and as `delayed` the other stream, takes `duration` as the
reference stream's last fragment start time, and builds the delay function
`f(x) = |totalDelay| * startMicroseconds(x) / duration`. -/
theorem sync_reference_designation (oracle : Oracle) (s1 s2 : List Fragment)
    (l1 l2 : ℤ) (h1 : lastStart s1 = .ok l1) (h2 : lastStart s2 = .ok l2) :
    syncSetup s1 s2 =
        .ok ((if l1 < l2 then (s1, s2) else (s2, s1)), |l1 - l2|,
          if l1 < l2 then l1 else l2) ∧
      SubtitleStream.synchronize (some oracle) s1 s2 =
        SubtitleStream.synchronizeCore oracle (if l1 < l2 then s1 else s2)
          (if l1 < l2 then s2 else s1)
          (delayFun |l1 - l2| (if l1 < l2 then l1 else l2)) ∧
      ∀ T D : ℤ, ∀ x : Fragment,
        delayFun T D x = (T : ℚ) * (x.startμ : ℚ) / (D : ℚ) := by
  have hsetup : syncSetup s1 s2 =
      .ok ((if l1 < l2 then (s1, s2) else (s2, s1)), |l1 - l2|,
        if l1 < l2 then l1 else l2) := by
    by_cases hlt : l1 < l2
    · have hneg : l1 - l2 < 0 := by omega
      simp [syncSetup, h1, h2, Bind.bind, Except.bind, hlt, hneg, if_pos, h1]
    · have hneg : ¬ l1 - l2 < 0 := by omega
      simp [syncSetup, h1, h2, Bind.bind, Except.bind, hlt, hneg, h2]
  refine ⟨hsetup, ?_, ?_⟩
  · simp [SubtitleStream.synchronize, Bind.bind, Except.bind, hsetup]
    by_cases hlt : l1 < l2 <;> simp [hlt]
  · intro T D x
    unfold delayFun
    ring

/-- C4 witness: the amended designation at the concrete streams of the
counterexample. -/
theorem sync_reference_designation_witness :
    lastStart [(⟨1, 10, 20, []⟩ : Fragment)] = .ok 10 ∧
      lastStart [(⟨1, 20, 30, []⟩ : Fragment)] = .ok 20 ∧
      SubtitleStream.synchronize (some (fun _ _ => 0))
          [(⟨1, 10, 20, []⟩ : Fragment)] [(⟨1, 20, 30, []⟩ : Fragment)] =
        SubtitleStream.synchronizeCore (fun _ _ => 0)
          [(⟨1, 10, 20, []⟩ : Fragment)] [(⟨1, 20, 30, []⟩ : Fragment)]
          (delayFun 10 10) := by
  refine ⟨rfl, rfl, ?_⟩
  have h := (sync_reference_designation (fun _ _ => 0)
    [(⟨1, 10, 20, []⟩ : Fragment)] [(⟨1, 20, 30, []⟩ : Fragment)] 10 20 rfl rfl).2.1
  simpa using h

/-- C5: whenever the window interval is non-zero (so that the scorer does
not raise), the confidence of a candidate is exactly
`0.5*time_score + 0.3*lcsr_score + 0.2*overlap_score`, with
`overlap_score = max(0, min(ref.end, f.end) - max(ref.start, f.start)) / ref.duration`,
which is 0 whenever the computed overlap is at most 0. -/
theorem score_confidence_formula (oracle : Oracle) (ref f : Fragment)
    (interval : ℚ) (h : interval ≠ 0) :
    scoreCandidate oracle ref f interval =
        .ok (0.5 * (1 - ((|ref.startμ - f.startμ| : ℤ) : ℚ) / interval)
          + 0.3 * oracle (normalize ref.text) (normalize f.text)
          + 0.2 * (((max 0 (min ref.endμ f.endμ - max ref.startμ f.startμ) : ℤ) : ℚ)
              / ((ref.duration : ℤ) : ℚ))) ∧
      (min ref.endμ f.endμ - max ref.startμ f.startμ ≤ 0 →
        ((max 0 (min ref.endμ f.endμ - max ref.startμ f.startμ) : ℤ) : ℚ)
            / ((ref.duration : ℤ) : ℚ) = 0) := by
  constructor
  · by_cases hov : 0 < min ref.endμ f.endμ - max ref.startμ f.startμ
    · have hdur : (0 : ℤ) < ref.duration := by
        unfold Fragment.duration
        have h1 : min ref.endμ f.endμ ≤ ref.endμ := min_le_left _ _
        have h2 : ref.startμ ≤ max ref.startμ f.startμ := le_max_left _ _
        omega
      have hdurq : ((ref.duration : ℤ) : ℚ) ≠ 0 := by
        exact_mod_cast hdur.ne'
      have hmax : max 0 (min ref.endμ f.endμ - max ref.startμ f.startμ) =
          min ref.endμ f.endμ - max ref.startμ f.startμ := max_eq_right hov.le
      simp [scoreCandidate, Bind.bind, Except.bind, h, hov, hdurq, hmax]
    · have hmax : max 0 (min ref.endμ f.endμ - max ref.startμ f.startμ) = 0 :=
        max_eq_left (by omega)
      simp [scoreCandidate, Bind.bind, Except.bind, h, hov, hmax]
  · intro hle
    have hmax : max 0 (min ref.endμ f.endμ - max ref.startμ f.startμ) = 0 :=
      max_eq_left hle
    simp [hmax]

/-- C5 witness: the formula evaluated at a concrete candidate with window
interval 5. -/
theorem score_confidence_formula_witness :
    (5 : ℚ) ≠ 0 ∧
      scoreCandidate (fun _ _ => 1/2) (⟨1, 0, 10, []⟩ : Fragment)
          (⟨1, 2, 8, []⟩ : Fragment) 5 = .ok (57/100) := by
  refine ⟨by norm_num, ?_⟩
  have h := (score_confidence_formula (fun _ _ => 1/2) (⟨1, 0, 10, []⟩ : Fragment)
    (⟨1, 2, 8, []⟩ : Fragment) 5 (by norm_num)).1
  rw [h]
  norm_num [Fragment.duration]

theorem windowCursorGo_le (fixed : List Fragment) (refStart : ℤ) :
    ∀ fuel j, j ≤ fixed.length - 1 →
      windowCursorGo fixed refStart fuel j ≤ fixed.length - 1 := by
  intro fuel
  induction fuel with
  | zero => intro j hj; exact hj
  | succ n ih =>
    intro j hj
    unfold windowCursorGo
    split
    · exact ih (j + 1) (by omega)
    · exact hj

theorem windowCursor_le (fixed : List Fragment) (refStart : ℤ) :
    windowCursor fixed refStart ≤ fixed.length - 1 :=
  windowCursorGo_le fixed refStart fixed.length 0 (Nat.zero_le _)

theorem candidateWindow_bounds_of_ne_nil (fixed : List Fragment) (refStart : ℤ)
    (hne : fixed ≠ []) :
    0 ≤ windowLo fixed refStart ∧
      1 ≤ (candidateWindow fixed refStart).length ∧
      (candidateWindow fixed refStart).length ≤ 3 := by
  have hlen : 1 ≤ fixed.length := List.length_pos.mpr hne
  have hj : windowCursor fixed refStart ≤ fixed.length - 1 :=
    windowCursor_le fixed refStart
  refine ⟨le_max_left _ _, ?_, ?_⟩ <;>
    simp only [candidateWindow, windowLo, windowHi, List.length_take,
      List.length_drop] <;>
    omega

/-- C8: for a reference fragment that lies before every fragment of the
corrected copy of a non-empty delayed stream, the candidate window slice
uses a non-negative lower index (the `max(0, j-1)` guard) and holds between
1 and 3 consecutive fragments of the corrected stream. -/
theorem candidate_window_bounds (delayed : List Fragment) (drift : ℚ)
    (refStart : ℤ) (hne : delayed ≠ [])
    (hbefore : ∀ f ∈ SubtitleStream.shiftq delayed (-drift), refStart < f.startμ) :
    0 ≤ windowLo (SubtitleStream.shiftq delayed (-drift)) refStart ∧
      1 ≤ (candidateWindow (SubtitleStream.shiftq delayed (-drift)) refStart).length ∧
      (candidateWindow (SubtitleStream.shiftq delayed (-drift)) refStart).length ≤ 3 := by
  refine candidateWindow_bounds_of_ne_nil _ _ ?_
  simpa [SubtitleStream.shiftq] using hne

/-- C8 witness: a one-fragment delayed stream, zero drift, and a reference
fragment starting before it. -/
theorem candidate_window_bounds_witness :
    ([(⟨1, 10, 11, []⟩ : Fragment)] ≠ ([] : List Fragment)) ∧
      (∀ f ∈ SubtitleStream.shiftq [(⟨1, 10, 11, []⟩ : Fragment)] (-0), (0 : ℤ) < f.startμ) ∧
      1 ≤ (candidateWindow (SubtitleStream.shiftq [(⟨1, 10, 11, []⟩ : Fragment)] (-0)) 0).length ∧
      (candidateWindow (SubtitleStream.shiftq [(⟨1, 10, 11, []⟩ : Fragment)] (-0)) 0).length ≤ 3 := by
  refine ⟨by decide,
    by norm_num [SubtitleStream.shiftq, Fragment.shiftq, roundHalfEven,
      Fragment.shift], ?_⟩
  exact (candidate_window_bounds [(⟨1, 10, 11, []⟩ : Fragment)] 0 0 (by decide)
    (by norm_num [SubtitleStream.shiftq, Fragment.shiftq, roundHalfEven,
      Fragment.shift])).2

theorem parseLoop_append (pre : List (List Char)) :
    ∀ (s s' : PState) (rest : List (List Char)), runLines s pre = .ok s' →
      parseLoop s (pre ++ rest) = parseLoop s' rest := by
  induction pre with
  | nil =>
    intro s s' rest h
    have hs : s = s' := by
      simpa [runLines] using h
    simp [hs]
  | cons raw pre ih =>
    intro s s' rest h
    simp only [runLines] at h
    rw [List.cons_append]
    simp only [parseLoop]
    cases hstep : step s raw with
    | error e =>
      rw [hstep] at h
      exact absurd h (by simp)
    | ok s1 =>
      rw [hstep] at h
      exact ih s1 s' rest h

/-- C9: whenever the parser has reached a blank-separated block boundary
(stage 0) and the next non-blank line is not a valid integer, the whole
parse fails with an `SRTParseException` whose message quotes that exact
offending (stripped) line. -/
theorem parse_invalid_seqnumber_error (pre post : List (List Char))
    (raw : List Char) (s : PState)
    (hpre : runLines initPState pre = .ok s)
    (hstage : s.stage = 0)
    (hne : pyStrip raw ≠ [])
    (hint : intParse (pyStrip raw) = none) :
    SubtitleStream.parse (pre ++ raw :: post) =
      .error (.srtParseError (seqMsg (pyStrip raw))) := by
  unfold SubtitleStream.parse
  rw [parseLoop_append pre initPState s (raw :: post) hpre]
  have hstep : step s raw = .error (.srtParseError (seqMsg (pyStrip raw))) := by
    unfold step
    rw [if_neg hne]
    unfold stepContent
    simp [hstage, hint]
  simp only [parseLoop]
  rw [hstep]

/-- C9 witness: the spec's concrete example, input line `abc` where a
sequence number is expected. -/
theorem parse_invalid_seqnumber_error_witness :
    SubtitleStream.parse [['a', 'b', 'c']] =
      .error (.srtParseError (seqMsg ['a', 'b', 'c'])) := by
  have h := parse_invalid_seqnumber_error [] [] ['a', 'b', 'c'] initPState rfl rfl
    (by decide) (by decide)
  simpa using h

theorem pyLower_range (c : Char) : pyLower c = c ∨ pyLower c ∈
    ['a', 'b', 'c', 'd', 'e', 'f', 'g', 'h', 'i', 'j', 'k', 'l', 'm', 'n',
      'o', 'p', 'q', 'r', 's', 't', 'u', 'v', 'w', 'x', 'y', 'z',
      'á', 'é', 'í', 'ó', 'ú', 'ü', 'ñ'] := by
  unfold pyLower
  split
  all_goals first | (right; decide) | (left; rfl)

theorem deaccent_range (c : Char) : deaccent c = c ∨ deaccent c ∈
    ['a', 'e', 'i', 'o', 'u'] := by
  unfold deaccent
  split
  all_goals first | (right; decide) | (left; rfl)

theorem charFixes (c : Char) :
    pyLower (deaccent (pyLower c)) = deaccent (pyLower c) ∧
      deaccent (deaccent (pyLower c)) = deaccent (pyLower c) := by
  rcases pyLower_range c with h | h
  · rw [h]
    rcases deaccent_range c with h2 | h2
    · rw [h2]
      exact ⟨h, h2⟩
    · revert h2
      have hv : ∀ x ∈ (['a', 'e', 'i', 'o', 'u'] : List Char),
          pyLower x = x ∧ deaccent x = x := by decide
      exact fun h2 => hv _ h2
  · have hv : ∀ x ∈ (['a', 'b', 'c', 'd', 'e', 'f', 'g', 'h', 'i', 'j', 'k',
        'l', 'm', 'n', 'o', 'p', 'q', 'r', 's', 't', 'u', 'v', 'w', 'x', 'y',
        'z', 'á', 'é', 'í', 'ó', 'ú', 'ü', 'ñ'] : List Char),
        pyLower (deaccent x) = deaccent x ∧ deaccent (deaccent x) = deaccent x := by
      decide
    exact (hv _ h)

theorem deaccent_pyLower_lt {c : Char} (hc : c ≠ '<') :
    deaccent (pyLower c) ≠ '<' := by
  rcases pyLower_range c with h | h
  · rw [h]
    rcases deaccent_range c with h2 | h2
    · rw [h2]; exact hc
    · revert h2
      have hv : ∀ x ∈ (['a', 'e', 'i', 'o', 'u'] : List Char), x ≠ '<' := by
        decide
      exact fun h2 => hv _ h2
  · have hv : ∀ x ∈ (['a', 'b', 'c', 'd', 'e', 'f', 'g', 'h', 'i', 'j', 'k',
        'l', 'm', 'n', 'o', 'p', 'q', 'r', 's', 't', 'u', 'v', 'w', 'x', 'y',
        'z', 'á', 'é', 'í', 'ó', 'ú', 'ü', 'ñ'] : List Char),
        deaccent x ≠ '<' := by decide
    exact hv _ h

theorem wordChar_ne_space {c : Char} (h : wordChar c = true) : c ≠ ' ' := by
  intro he
  subst he
  exact absurd h (by decide)

theorem tagScan_mem : ∀ (l r : List Char), tagScan l = some r → ∀ c ∈ r, c ∈ l := by
  intro l
  induction l with
  | nil => intro r h; simp [tagScan] at h
  | cons x xs ih =>
    intro r h c hc
    simp only [tagScan] at h
    by_cases hx : x = '>'
    · rw [if_pos hx] at h
      injection h with h
      exact h ▸ List.mem_cons_of_mem _ hc
    · rw [if_neg hx] at h
      by_cases hn : x = '\n'
      · rw [if_pos hn] at h
        exact absurd h (by simp)
      · rw [if_neg hn] at h
        exact List.mem_cons_of_mem _ (ih r h c hc)

theorem tagSplit_mem : ∀ (l r : List Char), tagSplit l = some r → ∀ c ∈ r, c ∈ l := by
  intro l r h c hc
  cases l with
  | nil => simp [tagSplit] at h
  | cons x xs =>
    simp only [tagSplit] at h
    by_cases hn : x = '\n'
    · rw [if_pos hn] at h
      exact absurd h (by simp)
    · rw [if_neg hn] at h
      exact List.mem_cons_of_mem _ (tagScan_mem xs r h c hc)

theorem reSubGo_chars : ∀ (n : ℕ) (b : Bool) (l : List Char) (c : Char),
    c ∈ reSubGo n b l → (wordChar c = true ∧ c ∈ l) ∨ c = ' ' := by
  intro n
  induction n with
  | zero => intro b l c hc; simp [reSubGo] at hc
  | succ n ih =>
    intro b l c hc
    cases l with
    | nil => cases b <;> simp [reSubGo] at hc
    | cons x xs =>
      cases b with
      | false =>
        simp only [reSubGo] at hc
        by_cases hx : x = '<'
        · rw [if_pos hx] at hc
          cases ht : tagSplit xs with
          | some rest =>
            rw [ht] at hc
            rcases List.mem_cons.mp hc with h | h
            · exact Or.inr h
            · rcases ih false rest c h with ⟨hw, hm⟩ | h'
              · exact Or.inl ⟨hw, List.mem_cons_of_mem _ (tagSplit_mem xs rest ht c hm)⟩
              · exact Or.inr h'
          | none =>
            rw [ht] at hc
            rcases List.mem_cons.mp hc with h | h
            · exact Or.inr h
            · rcases ih true xs c h with ⟨hw, hm⟩ | h'
              · exact Or.inl ⟨hw, List.mem_cons_of_mem _ hm⟩
              · exact Or.inr h'
        · rw [if_neg hx] at hc
          by_cases hw : wordChar x = true
          · rw [if_pos hw] at hc
            rcases List.mem_cons.mp hc with h | h
            · exact Or.inl ⟨h ▸ hw, h ▸ List.mem_cons_self x xs⟩
            · rcases ih false xs c h with ⟨hw', hm⟩ | h'
              · exact Or.inl ⟨hw', List.mem_cons_of_mem _ hm⟩
              · exact Or.inr h'
          · rw [if_neg hw] at hc
            rcases List.mem_cons.mp hc with h | h
            · exact Or.inr h
            · rcases ih true xs c h with ⟨hw', hm⟩ | h'
              · exact Or.inl ⟨hw', List.mem_cons_of_mem _ hm⟩
              · exact Or.inr h'
      | true =>
        simp only [reSubGo] at hc
        by_cases hw : wordChar x = true
        · rw [if_pos hw] at hc
          rcases List.mem_cons.mp hc with h | h
          · exact Or.inl ⟨h ▸ hw, h ▸ List.mem_cons_self x xs⟩
          · rcases ih false xs c h with ⟨hw', hm⟩ | h'
            · exact Or.inl ⟨hw', List.mem_cons_of_mem _ hm⟩
            · exact Or.inr h'
        · rw [if_neg hw] at hc
          rcases ih true xs c hc with ⟨hw', hm⟩ | h'
          · exact Or.inl ⟨hw', List.mem_cons_of_mem _ hm⟩
          · exact Or.inr h'

theorem reSubGo_noss : ∀ (n : ℕ) (l : List Char), '<' ∉ l →
    List.Chain' (fun a b => a = ' ' → b ≠ ' ') (reSubGo n false l) ∧
      List.Chain' (fun a b => a = ' ' → b ≠ ' ') (reSubGo n true l) ∧
      ∀ c, (reSubGo n true l).head? = some c → c ≠ ' ' := by
  intro n
  induction n with
  | zero =>
    intro l _
    simp [reSubGo]
  | succ n ih =>
    intro l hl
    cases l with
    | nil => simp [reSubGo]
    | cons x xs =>
      have hx : x ≠ '<' := fun h => hl (h ▸ List.mem_cons_self x xs)
      have hxs : '<' ∉ xs := fun h => hl (List.mem_cons_of_mem _ h)
      obtain ⟨ihf, iht, ihh⟩ := ih xs hxs
      refine ⟨?_, ?_, ?_⟩
      · simp only [reSubGo, if_neg hx]
        by_cases hw : wordChar x = true
        · rw [if_pos hw]
          rw [List.chain'_cons']
          exact ⟨fun y _ hxe => absurd hxe (wordChar_ne_space hw), ihf⟩
        · rw [if_neg hw]
          rw [List.chain'_cons']
          refine ⟨?_, iht⟩
          intro y hy _
          exact ihh y (Option.mem_def.mp hy)
      · simp only [reSubGo]
        by_cases hw : wordChar x = true
        · rw [if_pos hw]
          rw [List.chain'_cons']
          exact ⟨fun y _ hxe => absurd hxe (wordChar_ne_space hw), ihf⟩
        · rw [if_neg hw]
          exact iht
      · simp only [reSubGo]
        by_cases hw : wordChar x = true
        · rw [if_pos hw]
          intro c hc
          have hxc : x = c := by simpa using hc
          exact hxc ▸ wordChar_ne_space hw
        · rw [if_neg hw]
          exact ihh

theorem reSubGo_id : ∀ (n : ℕ) (l : List Char), l.length ≤ n →
    (∀ c ∈ l, wordChar c = true ∨ c = ' ') →
    List.Chain' (fun a b => a = ' ' → b ≠ ' ') l →
    (reSubGo n false l = l) ∧
      ((∀ c, l.head? = some c → c ≠ ' ') → reSubGo n true l = l) := by
  intro n
  induction n with
  | zero =>
    intro l hlen _ _
    have : l = [] := List.length_eq_zero.mp (Nat.le_zero.mp hlen)
    subst this
    simp [reSubGo]
  | succ n ih =>
    intro l hlen hgood hchain
    cases l with
    | nil => simp [reSubGo]
    | cons x xs =>
      have hgx := hgood x (List.mem_cons_self x xs)
      have hx : x ≠ '<' := by
        intro he
        subst he
        rcases hgx with h | h
        · exact absurd h (by decide)
        · exact absurd h (by decide)
      have hlen' : xs.length ≤ n := by
        simp only [List.length_cons] at hlen
        omega
      have hgood' : ∀ c ∈ xs, wordChar c = true ∨ c = ' ' :=
        fun c hc => hgood c (List.mem_cons_of_mem _ hc)
      have hchain' := (List.chain'_cons'.mp hchain).2
      have hhead' := (List.chain'_cons'.mp hchain).1
      obtain ⟨ihf, iht⟩ := ih xs hlen' hgood' hchain'
      constructor
      · simp only [reSubGo, if_neg hx]
        rcases hgx with hw | hsp
        · rw [if_pos hw, ihf]
        · subst hsp
          rw [if_neg (by decide : ¬ (wordChar ' ' = true))]
          congr 1
          apply iht
          intro c hc
          exact hhead' c (Option.mem_def.mpr hc) rfl
      · intro hhead
        simp only [reSubGo]
        have hw : wordChar x = true := by
          rcases hgx with hw | hsp
          · exact hw
          · exact absurd hsp (hhead x rfl)
        rw [if_pos hw, ihf]

/-- C10 counterexample: normalization is not idempotent.  On the input
`<a><b>` each of the two adjacent markup tags is replaced by its own space,
so the first pass yields two consecutive spaces, which a second pass
collapses into one. -/
theorem normalize_not_idempotent :
    normalize (normalize ['<', 'a', '>', '<', 'b', '>']) ≠
      normalize ['<', 'a', '>', '<', 'b', '>'] := by
  decide

/-- C10 amended: the normalizer is idempotent on every input containing no
markup-opening character `<` (adjacent markup tags are the one way the
first pass can emit two adjacent spaces, which a second pass then merges). -/
theorem normalize_idempotent_without_markup (l : List Char) (hl : '<' ∉ l) :
    normalize (normalize l) = normalize l := by
  have hmlt : '<' ∉ (l.map pyLower).map deaccent := by
    intro hmem
    simp only [List.map_map, List.mem_map] at hmem
    obtain ⟨c, hc, he⟩ := hmem
    exact deaccent_pyLower_lt (fun h => hl (h ▸ hc)) he
  have hchars : ∀ c ∈ normalize l,
      (wordChar c = true ∧ c ∈ (l.map pyLower).map deaccent) ∨ c = ' ' :=
    fun c hc => reSubGo_chars _ _ _ _ hc
  have hnoss : List.Chain' (fun a b => a = ' ' → b ≠ ' ') (normalize l) :=
    (reSubGo_noss ((l.map pyLower).map deaccent).length _ hmlt).1
  have hfix : ((normalize l).map pyLower).map deaccent = normalize l := by
    rw [List.map_map]
    have hpt : ∀ c ∈ normalize l, (deaccent ∘ pyLower) c = id c := by
      intro c hc
      rcases hchars c hc with ⟨_, hm⟩ | hsp
      · simp only [List.map_map, List.mem_map] at hm
        obtain ⟨c0, _, he⟩ := hm
        subst he
        simp only [Function.comp_apply, id_eq]
        rw [(charFixes c0).1]
        exact (charFixes c0).2
      · subst hsp
        decide
    rw [List.map_congr_left hpt, List.map_id]
  have hgood : ∀ c ∈ normalize l, wordChar c = true ∨ c = ' ' :=
    fun c hc => (hchars c hc).imp And.left id
  show reSubMarkup (((normalize l).map pyLower).map deaccent) = normalize l
  rw [hfix]
  exact (reSubGo_id (normalize l).length (normalize l) le_rfl hgood hnoss).1

/-- C10 witness for the amended statement: a concrete markup-free line. -/
theorem normalize_idempotent_without_markup_witness :
    ('<' ∉ ("Hola, QUE tal amigos!".data)) ∧
      normalize (normalize ("Hola, QUE tal amigos!".data)) =
        normalize ("Hola, QUE tal amigos!".data) :=
  ⟨by decide, normalize_idempotent_without_markup ("Hola, QUE tal amigos!".data)
    (by decide)⟩

end Pysub
